import Mathlib

/-!
# pingfling: birthday roster loader, dispatch run and scheduler

A shallow embedding of `main.go`: `loadPeopleFromCSV` from the records of the
file on (the field count check of `csv.Reader.ReadAll`, then the row loop), the
run of `checkBirthdays`, the sample rows of `createExampleCSV` and the initial
delay computed in `main`, together with the parts of Go's `strings`, `fmt`,
`time` and `encoding/csv` packages those functions call.

Go strings are modelled as lists of characters.  Every string that
`time.Parse` accepts under the layouts of this program is pure ASCII, so bytes
and characters coincide wherever the distinction could matter.
-/

namespace Pingfling

/-- A Go string, as a list of characters. -/
abbrev GoString := List Char

/-! ## Package `strings` -/

/-- The predicate `unicode.IsSpace`: the Latin-1 spaces and the code points
with the Unicode White_Space property. -/
def isSpace (c : Char) : Bool :=
  let n := c.toNat
  n == 0x09 || n == 0x0A || n == 0x0B || n == 0x0C || n == 0x0D || n == 0x20 ||
  n == 0x85 || n == 0xA0 || n == 0x1680 || (0x2000 ≤ n && n ≤ 0x200A) ||
  n == 0x2028 || n == 0x2029 || n == 0x202F || n == 0x205F || n == 0x3000

/-- The function `strings.TrimSpace`: leading and trailing white space removed. -/
def TrimSpace (s : GoString) : GoString :=
  ((s.dropWhile isSpace).reverse.dropWhile isSpace).reverse

/-- The function `strings.ReplaceAll(s, old, new)` for a one-character `old`,
which is the shape of all five calls in `loadPeopleFromCSV`. -/
def ReplaceAll (s : GoString) (old : Char) (new : GoString) : GoString :=
  s.flatMap (fun c => if c = old then new else [c])

/-- The function `strings.HasPrefix`. -/
def HasPrefix (s pre : GoString) : Bool :=
  pre.isPrefixOf s

/-! ## Package `time`: calendar dates -/

/-- The calendar date of a `time.Time`.  Every time value this program builds
from a birthday has a zero clock reading in UTC, so the date is the whole value. -/
structure Time where
  year : Int
  month : Nat
  day : Nat
  deriving DecidableEq, Repr

/-- The zero `time.Time`: January 1, year 1. -/
def Time.zero : Time := ⟨1, 1, 1⟩

/-- The method `Time.IsZero`. -/
def Time.IsZero (t : Time) : Bool :=
  t.year == 1 && t.month == 1 && t.day == 1

/-- The function `isLeap` of package `time`. -/
def isLeap (year : Int) : Bool :=
  year % 4 == 0 && (year % 100 != 0 || year % 400 == 0)

/-- The function `daysIn` of package `time`: the length of month `m` in `year`. -/
def daysIn (m : Nat) (year : Int) : Nat :=
  if m = 2 then (if isLeap year then 29 else 28)
  else if m = 4 ∨ m = 6 ∨ m = 9 ∨ m = 11 then 30
  else 31

/-- Day overflow of `time.Date`: a day past the end of its month rolls into the
following months ("October 32 converts to November 1"). -/
def rollForward : Nat → Int → Nat → Nat → Time
  | 0, y, m, d => ⟨y, m, d⟩
  | fuel + 1, y, m, d =>
    if daysIn m y < d then
      if m = 12 then rollForward fuel (y + 1) 1 (d - daysIn m y)
      else rollForward fuel y (m + 1) (d - daysIn m y)
    else ⟨y, m, d⟩

/-- Day underflow of `time.Date`: a day before the first of its month rolls into
the preceding months. -/
def rollBackward : Nat → Int → Nat → Int → Time
  | 0, y, m, d => ⟨y, m, d.toNat⟩
  | fuel + 1, y, m, d =>
    if d < 1 then
      if m = 1 then rollBackward fuel (y - 1) 12 (d + daysIn 12 (y - 1))
      else rollBackward fuel y (m - 1) (d + daysIn (m - 1) y)
    else ⟨y, m, d.toNat⟩

/-- The function `time.Date` on year, month and day: the month is normalised
into 1..12 with overflow into the year, then the day into the month. -/
def Date (year month day : Int) : Time :=
  let m := month - 1
  let y := year + m / 12
  let mo := (m % 12).toNat + 1
  if 1 ≤ day then rollForward day.toNat y mo day.toNat
  else rollBackward (day.natAbs + 1) y mo day

/-- The method `Time.AddDate`, which builds `Date(year+years, month+months,
day+days)` and so normalises like `Date`. -/
def Time.AddDate (t : Time) (years months days : Int) : Time :=
  Date (t.year + years) (t.month + months) (t.day + days)

/-! ## Package `time`: `Parse` -/

/-- The layout elements of `time.Parse` that the layouts of this program use;
every other element of Go's layout language is `stdOther`. -/
inductive Std where
  | stdNumMonth
  | stdZeroMonth
  | stdDay
  | stdZeroDay
  | stdYear
  | stdLongYear
  | stdOther
  deriving DecidableEq, Repr

deriving instance DecidableEq for Except

/-- The reasons for which `time.Parse` fails. -/
inductive ParseError where
  | bad
  | extraText
  | monthOutOfRange
  | dayOutOfRange
  | unsupported
  | outOfFuel
  deriving DecidableEq, Repr

/-- The switch of `nextStdChunk` at one position: the element starting at the
head of the layout, with the layout after it.  The cases for `0`, `1`, `2` and
`-` are those of the source; a character that can start a month or day name, a
clock field, a zone or a fraction gives `stdOther`, on which `Parse` stops. -/
def stdAt : GoString → Option (Std × GoString)
  | [] => none
  | c :: rest =>
    if c = '0' then
      match rest with
      | [] => none
      | d :: rest1 =>
        if d = '1' then some (.stdZeroMonth, rest1)
        else if d = '2' then some (.stdZeroDay, rest1)
        else if d = '3' ∨ d = '4' ∨ d = '5' then some (.stdOther, rest1)
        else if d = '6' then some (.stdYear, rest1)
        else if d = '0' ∧ rest1.head? = some '2' then some (.stdOther, rest1.tail)
        else none
    else if c = '1' then
      if rest.head? = some '5' then some (.stdOther, rest.tail)
      else some (.stdNumMonth, rest)
    else if c = '2' then
      if rest.take 3 = "006".toList then some (.stdLongYear, rest.drop 3)
      else some (.stdDay, rest)
    else if c = '3' ∨ c = '4' ∨ c = '5' then some (.stdOther, rest)
    else if c = '-' then
      if rest.take 2 = "07".toList then some (.stdOther, rest.drop 2) else none
    else if c = 'J' ∨ c = 'M' ∨ c = '_' ∨ c = 'P' ∨ c = 'p' ∨ c = 'Z' ∨ c = '.' ∨ c = ','
    then some (.stdOther, rest)
    else none

/-- The function `nextStdChunk`: the literal prefix before the first layout
element, the element (`none` for Go's `0`, no element left) and the rest. -/
def nextStdChunk : GoString → GoString × Option Std × GoString
  | [] => ([], none, [])
  | c :: rest =>
    match stdAt (c :: rest) with
    | some (std, suffix) => ([], some std, suffix)
    | none =>
      let r := nextStdChunk rest
      (c :: r.1, r.2.1, r.2.2)

/-- The function `isDigit(s, i)` of package `time`. -/
def isDigit (s : GoString) (i : Nat) : Bool :=
  match s.get? i with
  | some c => '0' ≤ c && c ≤ '9'
  | none => false

/-- The value of a decimal digit. -/
def digitVal (c : Char) : Nat := c.toNat - '0'.toNat

/-- The function `leadingInt`: the value of the leading run of digits and the
rest of the string.  (Its overflow guard needs more than 18 digits; `Parse`
passes at most four characters.) -/
def leadingInt : GoString → Nat → Nat × GoString
  | [], x => (x, [])
  | c :: rest, x =>
    if '0' ≤ c ∧ c ≤ '9' then leadingInt rest (x * 10 + digitVal c)
    else (x, c :: rest)

/-- The function `atoi` of package `time`: an optional sign, then digits only. -/
def atoi (s : GoString) : Option Int :=
  let neg := s.head? = some '-'
  let s1 := if s.head? = some '-' ∨ s.head? = some '+' then s.tail else s
  let r := leadingInt s1 0
  if r.2 ≠ [] then none
  else if neg then some (-(r.1 : Int)) else some (r.1 : Int)

/-- The function `getnum`: a one- or two-digit number (`fixed` wants two). -/
def getnum (s : GoString) (fixed : Bool) : Option (Int × GoString) :=
  if !isDigit s 0 then none
  else if !isDigit s 1 then
    (if fixed then none else some ((digitVal (s.getD 0 '0') : Int), s.drop 1))
  else some ((digitVal (s.getD 0 '0') * 10 + digitVal (s.getD 1 '0') : Nat), s.drop 2)

/-- The function `skip` of package `time`: the literal `pre` removed from the
front of `value`; a space of the layout matches any run of spaces. -/
def skip : Nat → GoString → GoString → Option GoString
  | _, value, [] => some value
  | 0, _, _ :: _ => none
  | fuel + 1, value, p :: pre =>
    if p = ' ' then
      if value.head?.isSome ∧ value.head? ≠ some ' ' then none
      else skip fuel (value.dropWhile (· = ' ')) ((p :: pre).dropWhile (· = ' '))
    else
      match value with
      | [] => none
      | v :: vs => if v ≠ p then none else skip fuel vs pre

/-- The fields that the loop of `time.Parse` fills in. -/
structure Fields where
  year : Int
  month : Int
  day : Int
  deriving DecidableEq, Repr

/-- The loop of `time.Parse`: take the next chunk of the layout, match its
literal prefix, then read the element from the value. -/
def parseLoop : Nat → GoString → GoString → Fields → Except ParseError Fields
  | 0, _, _, _ => .error .outOfFuel
  | fuel + 1, layout, value, f =>
    let chunk := nextStdChunk layout
    match skip (chunk.1.length + 1) value chunk.1 with
    | none => .error .bad
    | some value =>
      match chunk.2.1 with
      | none => if value ≠ [] then .error .extraText else .ok f
      | some .stdYear =>
        if value.length < 2 then .error .bad
        else
          match atoi (value.take 2) with
          | none => .error .bad
          | some y =>
            parseLoop fuel chunk.2.2 (value.drop 2)
              { f with year := if 69 ≤ y then y + 1900 else y + 2000 }
      | some .stdLongYear =>
        if value.length < 4 ∨ !isDigit value 0 then .error .bad
        else
          match atoi (value.take 4) with
          | none => .error .bad
          | some y => parseLoop fuel chunk.2.2 (value.drop 4) { f with year := y }
      | some .stdNumMonth =>
        match getnum value false with
        | none => .error .bad
        | some (m, rest) =>
          if m ≤ 0 ∨ 12 < m then .error .monthOutOfRange
          else parseLoop fuel chunk.2.2 rest { f with month := m }
      | some .stdZeroMonth =>
        match getnum value true with
        | none => .error .bad
        | some (m, rest) =>
          if m ≤ 0 ∨ 12 < m then .error .monthOutOfRange
          else parseLoop fuel chunk.2.2 rest { f with month := m }
      | some .stdDay =>
        match getnum value false with
        | none => .error .bad
        | some (d, rest) => parseLoop fuel chunk.2.2 rest { f with day := d }
      | some .stdZeroDay =>
        match getnum value true with
        | none => .error .bad
        | some (d, rest) => parseLoop fuel chunk.2.2 rest { f with day := d }
      | some .stdOther => .error .unsupported

/-- The end of `time.Parse`: defaults for fields the layout did not set, the
check of the day against the month, and the date built from the fields. -/
def finishParse (f : Fields) : Except ParseError Time :=
  let month := if f.month < 0 then 1 else f.month
  let day := if f.day < 0 then 1 else f.day
  if day < 1 ∨ (daysIn month.toNat f.year : Int) < day then .error .dayOutOfRange
  else .ok (Date f.year month day)

/-- The function `time.Parse(layout, value)`, for layouts of the date subset. -/
def Parse (layout value : GoString) : Except ParseError Time :=
  match parseLoop (layout.length + 1) layout value ⟨0, -1, -1⟩ with
  | .error e => .error e
  | .ok f => finishParse f

/-! ## `loadPeopleFromCSV` -/

/-- The struct `Person`. -/
structure Person where
  Name : GoString
  Birthday : Time
  Phone : GoString
  deriving DecidableEq, Repr

/-- The layouts that `loadPeopleFromCSV` tries, in the order of the source. -/
def layouts : List GoString :=
  ["1/2/06".toList, "01/02/06".toList, "1/2/2006".toList, "01/02/2006".toList,
   "02/01/2006".toList, "02-01-2006".toList, "2006-01-02".toList]

/-- The year adjustment applied to a parsed date (the `t.Year() < 1900` branch). -/
def adjustYear (t : Time) : Time :=
  if t.year < 1900 then
    if t.year ≤ 30 then t.AddDate 2000 0 0
    else t.AddDate 1900 0 0
  else t

/-- The layout loop of `loadPeopleFromCSV`: `birthday` starts as the zero time
and takes the adjusted result of the first layout that parses. -/
def parseBirthday : List GoString → GoString → Time
  | [], _ => Time.zero
  | layout :: rest, birthdayStr =>
    match Parse layout birthdayStr with
    | .ok t => adjustYear t
    | .error _ => parseBirthday rest birthdayStr

/-- The choice of the raw phone number in `loadPeopleFromCSV`. -/
def choosePhone (primaryPhone whatsappPhone : GoString) : GoString :=
  let phone := primaryPhone
  if phone = [] then whatsappPhone else phone

/-- The cleaning of the phone number in `loadPeopleFromCSV`: five `ReplaceAll`
calls, then the country code. -/
def cleanPhone (phone : GoString) : GoString :=
  let phone := ReplaceAll phone ' ' []
  let phone := ReplaceAll phone '-' []
  let phone := ReplaceAll phone '(' []
  let phone := ReplaceAll phone ')' []
  let phone := ReplaceAll phone '+' []
  if !HasPrefix phone "91".toList then "91".toList ++ phone else phone

/-- The body of the row loop of `loadPeopleFromCSV` for a row after the header:
`none` when the row is skipped, else the `Person` appended. -/
def loadRow (record : List GoString) : Option Person :=
  if record.length < 18 then none
  else
    let name := TrimSpace (record.getD 5 [])
    let birthdayStr := TrimSpace (record.getD 17 [])
    let primaryPhone := TrimSpace (record.getD 14 [])
    let whatsappPhone := TrimSpace (record.getD 15 [])
    if name = [] then none
    else if birthdayStr = [] then none
    else
      let phone := choosePhone primaryPhone whatsappPhone
      if phone = [] then none
      else
        let birthday := parseBirthday layouts birthdayStr
        if birthday.IsZero then none
        else some { Name := name, Birthday := birthday, Phone := cleanPhone phone }

/-- The row loop of `loadPeopleFromCSV`, with the row index `i` and the slice
`people` built so far. -/
def loadLoop : Nat → List (List GoString) → List Person → List Person
  | _, [], people => people
  | i, record :: rest, people =>
    if i = 0 then loadLoop (i + 1) rest people
    else
      match loadRow record with
      | none => loadLoop (i + 1) rest people
      | some p => loadLoop (i + 1) rest (people ++ [p])

/-- The errors that `loadPeopleFromCSV` returns: `os.Open` failed or the file is
not well-formed CSV (with the message), or `csv.ErrFieldCount`, "wrong number
of fields". -/
inductive LoadError where
  | file (msg : GoString)
  | ErrFieldCount
  deriving DecidableEq, Repr

/-- The loop of `csv.Reader.ReadAll` over the records of the file, with the
reader's `FieldsPerRecord`.  `csv.NewReader` leaves it at 0, so the first record
sets it to its own number of fields and every later record with another number
of fields stops the read with `ErrFieldCount`. -/
def readAllLoop : Nat → List (List GoString) → List (List GoString) →
    Except LoadError (List (List GoString))
  | _, [], records => .ok records
  | fieldsPerRecord, record :: rest, records =>
    if fieldsPerRecord > 0 then
      if record.length ≠ fieldsPerRecord then .error .ErrFieldCount
      else readAllLoop fieldsPerRecord rest (records ++ [record])
    else readAllLoop record.length rest (records ++ [record])

/-- The call `reader.ReadAll()` of `loadPeopleFromCSV`, on a reader made by
`csv.NewReader`. -/
def ReadAll (rows : List (List GoString)) : Except LoadError (List (List GoString)) :=
  readAllLoop 0 rows []

/-- The function `loadPeopleFromCSV`.  The input is what `os.Open` and the CSV
syntax give: an error message, or the records written in the file, each with
its own number of fields.  An error of `ReadAll` is returned as it is; the
records it returns go through the row loop. -/
def loadPeopleFromCSV (file : Except GoString (List (List GoString))) :
    Except LoadError (List Person) :=
  match file with
  | .error msg => .error (.file msg)
  | .ok rows =>
    match ReadAll rows with
    | .error err => .error err
    | .ok records => .ok (loadLoop 0 records [])

/-- The rows that `createExampleCSV` writes: the header and two sample rows. -/
def createExampleCSV : List (List GoString) :=
  [["Serial", "S.N.", "Member ID", "Family ID", "Member Count", "Member Name(Eng.)",
    "Member Name(Hindi)", "Father/Husband Name(Eng.)", "Father/Husband Name(Hindi)",
    "Age(Yrs.)", "Gotra", "Chokari", "Zone", "Birth Place", "Mobile No. 1",
    "Whatsapp No. 2", "Email", "DOB", "Gender", "Status", "Address", "Address Hindi",
    "Pincode"].map String.toList,
   ["1", "10790", "409", "109", "1", "John Doe", "जॉन डो", "Late. Father Name",
    "स्व. पिता जी", "35 Yrs.", "Gotra", "Area", "Zone-4", "Jaipur", "9123456789",
    "9123456789", "john@email.com", "15/1/89", "Male", "Head of family",
    "Address Line 1", "पता लाइन 1", "302021"].map String.toList,
   ["2", "10791", "410", "109", "2", "Jane Smith", "जेन स्मिथ", "John Doe", "जॉन डो",
    "32 Yrs.", "Gotra", "Area", "Zone-4", "Jaipur", "9876543210", "9876543210",
    "jane@email.com", "22/12/92", "Female", "Member", "Address Line 2", "पता लाइन 2",
    "302021"].map String.toList]

/-! ## Package `fmt` -/

/-- The function `fmt.Sprintf` on string operands, for formats built from plain
text, the verb `%s` and `%%`.  A `%s` without an operand left prints
`%!s(MISSING)`, operands left over are listed as `%!(EXTRA ...)`, a lone `%` at
the end prints `%!(NOVERB)`; any other verb or flag is outside the model
(`none`). -/
def Sprintf : GoString → List GoString → Option GoString
  | [], [] => some []
  | [], a :: args =>
    some ("%!(EXTRA ".toList ++
      ", ".toList.intercalate ((a :: args).map (fun x => "string=".toList ++ x)) ++ ")".toList)
  | c :: rest, args =>
    if c ≠ '%' then (Sprintf rest args).map (fun out => c :: out)
    else
      match rest with
      | [] => some "%!(NOVERB)".toList
      | v :: rest1 =>
        if v = 's' then
          match args with
          | [] => (Sprintf rest1 []).map (fun out => "%!s(MISSING)".toList ++ out)
          | a :: args1 => (Sprintf rest1 args1).map (fun out => a ++ out)
        else if v = '%' then (Sprintf rest1 args).map (fun out => '%' :: out)
        else none

/-! ## `checkBirthdays` -/

/-- The variable `birthdayMessageTemplates` (English, for age up to 40). -/
def birthdayMessageTemplates : List GoString :=
  ["🎉 Happy Birthday, श्री %s जी! 🎂\n\nWishing you a day filled with happiness and positivity. Hope the year ahead is fantastic. 🎈\n\n--%s (%s)".toList,
   "🌟 Happy Birthday, श्री %s जी! 🎊\n\nMay your special day bring enduring joy and memorable moments. Here\x27s to another remarkable year ahead! 🥳\n\n--%s (%s)".toList,
   "🎂 Warmest wishes on your special day, श्री %s जी! 🎉\n\nWishing you every success and happiness in the coming year. May your ambitions continue to soar. 🎁\n\n--%s (%s)".toList,
   "🎈 Happy Birthday, श्री %s जी! 🌈\n\nMay laughter and good health accompany you today and always. Wishing you happiness and fulfillment throughout the year! 🥳\n\n--%s (%s)".toList,
   "🎊 Wishing you a truly happy birthday, श्री %s जी! 🎂\n\nMay this year be filled with rewarding experiences and cherished moments. You deserve the very best each day. 🎉\n\n--%s (%s)".toList,
   "🎁 Happy Birthday, श्री %s जी! 🎈\n\nSending you heartfelt wishes for growth and happiness. May this year bring you closer to your aspirations. 🥳\n\n--%s (%s)".toList,
   "🌺 Warm birthday greetings to someone exceptional, श्री %s जी! 🎂\n\nMay your year ahead be filled with achievements and bright opportunities. 🎉\n\n--%s (%s)".toList]

/-- The variable `birthdayMessageTemplatesHindi` (Hindi, for age above 40). -/
def birthdayMessageTemplatesHindi : List GoString :=
  ["🎉 जन्मदिन मुबारक हो, श्री %s जी! 🎂\n\nआपका दिन खुशियों और सकारात्मकता से भरा हो। आशा है आने वाला साल आपके लिए शानदार रहेगा। 🎈\n\n--%s (%s)".toList,
   "🌟 जन्मदिन की शुभकामनाएँ, श्री %s जी! 🎊\n\nयह खास दिन आपके लिए खुशियाँ और सुंदर यादें लेकर आए। आपके जीवन के एक और अद्भुत वर्ष के लिए शुभकामनाएँ! 🥳\n\n--%s (%s)".toList,
   "🎂 आपके खास दिन पर हार्दिक शुभकामनाएँ, श्री %s जी! 🎉\n\nआने वाले साल में आपको सफलता और खुशी मिले। आपके सपने और भी ऊँचे हों। 🎁\n\n--%s (%s)".toList,
   "🎈 जन्मदिन मुबारक हो, श्री %s जी! 🌈\n\nहँसी और अच्छे स्वास्थ्य का साथ हमेशा आपके साथ रहे। नए साल में आपको आनंद और उपलब्धियों की शुभकामनाएँ! 🥳\n\n--%s (%s)".toList,
   "🎁 जन्मदिन मुबारक हो, श्री %s जी! 🎈\n\nआपको खुशियों व उन्नति की शुभकामनाएँ। आने वाला साल आपके लक्ष्य के और करीब लाए। 🥳\n\n--%s (%s)".toList]

/-- The function `rand.Intn(n)` for a positive `n`, from the raw value `r` behind
the call: every result lies in `[0, n)` and every value there is the result for
some `r`. -/
def Intn (r n : Nat) : Nat := r % n

/-- The message that `checkBirthdays` builds for a matched person, with the raw
random value `r` of its `rand.Intn` call: `none` when the index is out of range
(a panic in Go) or the format is outside the `Sprintf` model. -/
def birthdayMessage (today : Time) (person : Person) (senderName senderNumber : GoString)
    (r : Nat) : Option GoString :=
  let age := today.year - person.Birthday.year
  if age > 40 then
    let templateIndex := Intn r birthdayMessageTemplatesHindi.length
    match birthdayMessageTemplatesHindi.get? templateIndex with
    | none => none
    | some template => Sprintf template [person.Name, senderName, senderNumber]
  else
    let templateIndex := Intn r birthdayMessageTemplates.length
    match birthdayMessageTemplates.get? templateIndex with
    | none => none
    | some template => Sprintf template [person.Name, senderName, senderNumber]

/-- One call of `sendMessage`: the address, the text, and whether it returned
without an error. -/
structure SendCall where
  phoneNumber : GoString
  message : GoString
  ok : Bool
  deriving DecidableEq, Repr

/-- What a run of `checkBirthdays` depends on from outside: the local date
`time.Now()` gives at its start, the raw value behind the k-th `rand.Intn` call,
and whether the k-th `sendMessage` call (counted from zero, with its address and
text) returns without an error. -/
structure World where
  today : Time
  rand : Nat → Nat
  send : Nat → GoString → GoString → Bool

/-- The variables of a run of `checkBirthdays`, with the `sendMessage` calls made
so far (oldest first) and the number of `rand.Intn` calls made so far. -/
structure RunState where
  birthdayCount : Nat
  sentPeople : List Person
  calls : List SendCall
  draws : Nat
  deriving DecidableEq, Repr

/-- The loop of `checkBirthdays` over the roster. -/
def checkLoop (w : World) (senderName senderNumber : GoString) :
    List Person → RunState → Option RunState
  | [], st => some st
  | person :: rest, st =>
    if person.Birthday.day = w.today.day ∧ person.Birthday.month = w.today.month then
      match birthdayMessage w.today person senderName senderNumber (w.rand st.draws) with
      | none => none
      | some message =>
        let ok := w.send st.calls.length person.Phone message
        checkLoop w senderName senderNumber rest
          { birthdayCount := st.birthdayCount + 1
            sentPeople := if ok then st.sentPeople ++ [person] else st.sentPeople
            calls := st.calls ++ [⟨person.Phone, message, ok⟩]
            draws := st.draws + 1 }
    else checkLoop w senderName senderNumber rest st

/-- The loop that builds `reportMsg`: one `Sprintf("%s (%s)\n", ...)` per person. -/
def reportLoop : List Person → GoString → Option GoString
  | [], reportMsg => some reportMsg
  | p :: rest, reportMsg =>
    match Sprintf "%s (%s)\n".toList [p.Name, p.Phone] with
    | none => none
    | some line => reportLoop rest (reportMsg ++ line)

/-- The report text of `checkBirthdays`. -/
def reportMessage (sentPeople : List Person) : Option GoString :=
  match reportLoop sentPeople "Birthday messages sent today:\n".toList with
  | none => none
  | some reportMsg =>
    if sentPeople.length = 0 then some (reportMsg ++ "(No messages sent)".toList)
    else some reportMsg

/-- The function `checkBirthdays`: `connected` is what `client.IsConnected()`
returns at the start.  The result is the state at the end of the run; the
outcome of the report send is recorded in its call and otherwise only logged. -/
def checkBirthdays (connected : Bool) (w : World) (people : List Person)
    (senderName senderNumber reportNumber : GoString) : Option RunState :=
  if !connected then some ⟨0, [], [], 0⟩
  else
    match checkLoop w senderName senderNumber people ⟨0, [], [], 0⟩ with
    | none => none
    | some st =>
      if st.birthdayCount = 0 then some st
      else
        match reportMessage st.sentPeople with
        | none => none
        | some reportMsg =>
          some { st with
            calls := st.calls ++
              [⟨reportNumber, reportMsg, w.send st.calls.length reportNumber reportMsg⟩] }

/-! ## The scheduler of `main` -/

/-- The constant `time.Hour`, in nanoseconds. -/
def Hour : Int := 3600 * 1000000000

/-- The instant `time.Date(now.Year(), now.Month(), now.Day(), 9, 0, 0, 0,
now.Location())`, the first value of `next9AM`.  Instants are nanoseconds on the local wall clock of a zone
without clock changes, counted from a local midnight, so the civil day of `now`
starts at `now - now % (24 * Hour)`. -/
def today9AM (now : Int) : Int :=
  (now - now % (24 * Hour)) + 9 * Hour

/-- The variable `next9AM` of `main` after the `if now.After(next9AM)` step. -/
def next9AM (now : Int) : Int :=
  if now > today9AM now then today9AM now + 24 * Hour else today9AM now

/-- The variable `duration` of `main`, the one-shot delay given to
`time.NewTimer`: `next9AM.Sub(now)`. -/
def duration (now : Int) : Int :=
  next9AM now - now

/-! ## Definitions used in the statements -/

/-- The invariant of the loop of `Parse`: a year from zero up, a month unset or
within 1..12, a day unset or from zero up. -/
def FieldsOk (f : Fields) : Prop :=
  0 ≤ f.year ∧ (f.month = -1 ∨ (1 ≤ f.month ∧ f.month ≤ 12)) ∧ -1 ≤ f.day

/-- A calendar date in range: a month within 1..12 and a day within the month. -/
def ValidDate (t : Time) : Prop :=
  1 ≤ t.month ∧ t.month ≤ 12 ∧ 1 ≤ t.day ∧ t.day ≤ daysIn t.month t.year


/-- The two characters that write `yy` (below 100) as a two-digit year. -/
def twoDigits (yy : Nat) : GoString :=
  [Char.ofNat (48 + yy / 10), Char.ofNat (48 + yy % 10)]

/-- The normalisation of a raw contact as the specification words it: spaces,
hyphens and parentheses removed, then one leading plus sign, then the prefix
`91` put in front unless it is there already. -/
def specCleanPhone (s : GoString) : GoString :=
  let t := s.filter (fun c => c ≠ ' ' ∧ c ≠ '-' ∧ c ≠ '(' ∧ c ≠ ')')
  let t := if t.head? = some '+' then t.tail else t
  if "91".toList <+: t then t else "91".toList ++ t

/-- A row whose two identifier fields are both filled in and differ: field 14
holds `9811111111`, field 15 holds `9822222222`. -/
def rowTwoNumbers : List GoString :=
  ["7", "10800", "411", "110", "1", "Asha Rao", "", "", "", "47 Yrs.", "", "", "Zone-4",
   "Jaipur", "9811111111", "9822222222", "", "07/05/1978", "Female"].map String.toList

/-- A row whose date field is 29 February of the year 0400. -/
def rowLeapDay : List GoString :=
  ["8", "10801", "412", "110", "2", "Ravi Rao", "", "", "", "", "", "", "Zone-4",
   "Jaipur", "9833333333", "", "", "2/29/0400", "Male"].map String.toList

/-- The roster entry of the end-to-end scenario: `Test User`, born 2006-01-02,
contact `919999999999`. -/
def testUser : Person :=
  ⟨"Test User".toList, ⟨2006, 1, 2⟩, "919999999999".toList⟩

/-- A file whose second record has three fields where the header and the third
record have 23: the header of `createExampleCSV`, a short record, and a full
record with padded name and date. -/
def raggedCSV : List (List GoString) :=
  [createExampleCSV.getD 0 [],
   ["3", "10792", "411"].map String.toList,
   ["4", "10793", "412", "110", "1", "  Ravi Rao ", "", "", "", "47 Yrs.", "Gotra",
    "Area", "Zone-4", "Jaipur", "98765 43210", "", "ravi@email.com", " 07/05/1978",
    "Male", "Member", "Address Line 3", "", "302021"].map String.toList]

/-! ## Facts about the `time` model -/

theorem digitVal_le (c : Char) (h : '0' ≤ c ∧ c ≤ '9') : digitVal c ≤ 9 := by
  obtain ⟨_, h2⟩ := h
  have h2' : c.toNat ≤ '9'.toNat := h2
  have h9 : '9'.toNat = 57 := by decide
  have h0 : '0'.toNat = 48 := by decide
  unfold digitVal
  omega

theorem leadingInt_lt (s : GoString) (x : Nat) :
    (leadingInt s x).1 < (x + 1) * 10 ^ s.length := by
  induction s generalizing x with
  | nil => simp [leadingInt]
  | cons c rest ih =>
    unfold leadingInt
    split
    · next h =>
      have hd := digitVal_le c h
      have h1 := ih (x * 10 + digitVal c)
      have h2 : (x * 10 + digitVal c + 1) * 10 ^ rest.length
          ≤ ((x + 1) * 10) * 10 ^ rest.length :=
        Nat.mul_le_mul_right _ (by omega)
      simp only [List.length_cons, pow_succ]
      calc (leadingInt rest (x * 10 + digitVal c)).1
          < (x * 10 + digitVal c + 1) * 10 ^ rest.length := h1
        _ ≤ ((x + 1) * 10) * 10 ^ rest.length := h2
        _ = (x + 1) * (10 ^ rest.length * 10) := by ring
    · have hp : 0 < 10 ^ (c :: rest).length := by positivity
      show x < (x + 1) * 10 ^ (c :: rest).length
      nlinarith

theorem atoi_gt (s : GoString) (y : Int) (hlen : s.length ≤ 2) (h : atoi s = some y) :
    -100 < y := by
  unfold atoi at h
  simp only at h
  generalize hs1 : (if s.head? = some '-' ∨ s.head? = some '+' then s.tail else s) = s1 at h
  have hl : s1.length ≤ 2 := by
    rw [← hs1]
    split <;> (try simp only [List.length_tail]) <;> omega
  have hb := leadingInt_lt s1 0
  simp only [zero_add, one_mul] at hb
  have hp : 10 ^ s1.length ≤ 10 ^ 2 := Nat.pow_le_pow_right (by norm_num) hl
  split_ifs at h <;> simp at h <;> omega

theorem atoi_nonneg (s : GoString) (y : Int) (hd : isDigit s 0 = true) (h : atoi s = some y) :
    0 ≤ y := by
  have hne : s.head? ≠ some '-' := by
    cases s with
    | nil => simp
    | cons c rest =>
      simp only [isDigit, List.get?_cons_zero, Bool.and_eq_true, decide_eq_true_eq] at hd
      simp only [List.head?_cons, ne_eq, Option.some.injEq]
      rintro rfl
      exact absurd hd.1 (by decide)
  unfold atoi at h
  simp only at h
  split_ifs at h <;> simp at h <;> omega

theorem getnum_nonneg (s : GoString) (fixed : Bool) (n : Int) (rest : GoString)
    (h : getnum s fixed = some (n, rest)) : 0 ≤ n := by
  unfold getnum at h
  split_ifs at h <;> simp at h <;> omega

theorem parseLoop_fieldsOk (fuel : Nat) (layout value : GoString) (f g : Fields)
    (h : parseLoop fuel layout value f = .ok g) (hf : FieldsOk f) : FieldsOk g := by
  induction fuel generalizing layout value f with
  | zero => simp [parseLoop] at h
  | succ fuel ih =>
    unfold parseLoop at h
    simp only at h
    obtain ⟨hy, hm, hd⟩ := hf
    split at h
    · simp at h
    · next value1 _ =>
      split at h
      · split_ifs at h
        simp only [Except.ok.injEq] at h
        subst h
        exact ⟨hy, hm, hd⟩
      · split_ifs at h
        split at h
        · simp at h
        · next y hy1 =>
          refine ih _ _ _ h ⟨?_, hm, hd⟩
          have := atoi_gt _ y (by simp) hy1
          simp only
          split_ifs <;> omega
      · split_ifs at h with hc
        split at h
        · simp at h
        · next y hy1 =>
          refine ih _ _ _ h ⟨?_, hm, hd⟩
          have hdig : isDigit value1 0 = true := by
            by_contra hcon
            exact hc (Or.inr (by simpa using hcon))
          have hdig4 : isDigit (value1.take 4) 0 = true := by
            cases value1 with
            | nil => simp [isDigit] at hdig
            | cons c r => simpa [isDigit] using hdig
          exact atoi_nonneg _ y hdig4 hy1
      · split at h
        · simp at h
        · split_ifs at h with hr
          exact ih _ _ _ h ⟨hy, Or.inr (by simp only; omega), hd⟩
      · split at h
        · simp at h
        · split_ifs at h with hr
          exact ih _ _ _ h ⟨hy, Or.inr (by simp only; omega), hd⟩
      · split at h
        · simp at h
        · next d rest hg =>
          have := getnum_nonneg _ _ _ _ hg
          exact ih _ _ _ h ⟨hy, hm, by simp only; omega⟩
      · split at h
        · simp at h
        · next d rest hg =>
          have := getnum_nonneg _ _ _ _ hg
          exact ih _ _ _ h ⟨hy, hm, by simp only; omega⟩
      · simp at h

theorem Date_month_norm (y : Int) (m : Nat) (h1 : 1 ≤ m) (h12 : m ≤ 12) :
    y + ((m : Int) - 1) / 12 = y ∧ ((((m : Int) - 1) % 12).toNat + 1) = m := by
  constructor <;> omega

theorem Date_of_valid (y : Int) (m d : Nat) (h1 : 1 ≤ m) (h12 : m ≤ 12) (hd1 : 1 ≤ d)
    (hd : d ≤ daysIn m y) : Date y m d = ⟨y, m, d⟩ := by
  obtain ⟨e1, e2⟩ := Date_month_norm y m h1 h12
  unfold Date
  simp only [e1, e2]
  have hpos : (1 : Int) ≤ (d : Int) := by omega
  rw [if_pos hpos, Int.toNat_natCast]
  obtain ⟨k, rfl⟩ : ∃ k, d = k + 1 := ⟨d - 1, by omega⟩
  unfold rollForward
  rw [if_neg (by omega)]

theorem rollForward_year_ge (fuel : Nat) (y : Int) (m d : Nat) :
    y ≤ (rollForward fuel y m d).year := by
  induction fuel generalizing y m d with
  | zero => simp [rollForward]
  | succ fuel ih =>
    unfold rollForward
    split_ifs
    · have := ih (y + 1) 1 (d - daysIn m y)
      omega
    · exact ih _ _ _
    · simp

theorem Date_year_ge (y : Int) (m d : Nat) (h1 : 1 ≤ m) (h12 : m ≤ 12) (hd1 : 1 ≤ d) :
    y ≤ (Date y m d).year := by
  obtain ⟨e1, e2⟩ := Date_month_norm y m h1 h12
  unfold Date
  simp only [e1, e2]
  have hpos : (1 : Int) ≤ (d : Int) := by omega
  rw [if_pos hpos]
  exact rollForward_year_ge _ _ _ _

theorem finishParse_valid (f : Fields) (t : Time) (h : finishParse f = .ok t)
    (hf : FieldsOk f) : ValidDate t ∧ 0 ≤ t.year := by
  obtain ⟨hy, hm, hd⟩ := hf
  unfold finishParse at h
  simp only at h
  generalize hmo : (if f.month < 0 then 1 else f.month) = mo at h
  generalize hda : (if f.day < 0 then 1 else f.day) = da at h
  split_ifs at h with hbad
  simp only [Except.ok.injEq] at h
  push_neg at hbad
  obtain ⟨hb1, hb2⟩ := hbad
  have hmo1 : 1 ≤ mo ∧ mo ≤ 12 := by
    rw [← hmo]
    split_ifs <;> omega
  obtain ⟨m, rfl⟩ : ∃ m : Nat, mo = m := ⟨mo.toNat, by omega⟩
  obtain ⟨d, rfl⟩ : ∃ d : Nat, da = d := ⟨da.toNat, by omega⟩
  rw [Int.toNat_natCast] at hb2
  have hdv : d ≤ daysIn m f.year := by exact_mod_cast hb2
  rw [Date_of_valid f.year m d (by omega) (by omega) (by omega) hdv] at h
  subst h
  exact ⟨⟨by simp only; omega, by simp only; omega, by simp only; omega, hdv⟩, hy⟩

theorem Parse_valid (layout value : GoString) (t : Time) (h : Parse layout value = .ok t) :
    ValidDate t ∧ 0 ≤ t.year := by
  unfold Parse at h
  split at h
  · simp at h
  · next f hf =>
    exact finishParse_valid f t h
      (parseLoop_fieldsOk _ _ _ _ _ hf ⟨by decide, Or.inl rfl, by decide⟩)

theorem adjustYear_year_ge (t : Time) (hv : ValidDate t) (hy : 0 ≤ t.year) :
    1900 ≤ (adjustYear t).year := by
  obtain ⟨h1, h12, hd1, _⟩ := hv
  unfold adjustYear Time.AddDate
  simp only [add_zero]
  split_ifs
  · have := Date_year_ge (t.year + 2000) t.month t.day h1 h12 hd1
    omega
  · have := Date_year_ge (t.year + 1900) t.month t.day h1 h12 hd1
    omega
  · omega

theorem isZero_false_of_year (t : Time) (h : 1900 ≤ t.year) : t.IsZero = false := by
  unfold Time.IsZero
  have : (t.year == 1) = false := by
    rw [beq_eq_false_iff_ne]
    omega
  simp [this]

theorem parseBirthday_isZero (ls : List GoString) (s : GoString) :
    (parseBirthday ls s).IsZero = false ↔ ∃ l ∈ ls, ∃ t, Parse l s = .ok t := by
  induction ls with
  | nil => simp [parseBirthday, Time.zero, Time.IsZero]
  | cons l rest ih =>
    unfold parseBirthday
    split
    · next t ht =>
      obtain ⟨hv, hy⟩ := Parse_valid l s t ht
      have := isZero_false_of_year _ (adjustYear_year_ge t hv hy)
      simp only [this, true_iff]
      exact ⟨l, List.mem_cons_self _ _, t, ht⟩
    · next e he =>
      rw [ih]
      constructor
      · rintro ⟨l1, hl1, t, ht⟩
        exact ⟨l1, List.mem_cons_of_mem _ hl1, t, ht⟩
      · rintro ⟨l1, hl1, t, ht⟩
        rcases List.mem_cons.mp hl1 with rfl | hmem
        · rw [he] at ht
          simp at ht
        · exact ⟨l1, hmem, t, ht⟩

theorem loadLoop_succ (i : Nat) (records : List (List GoString)) (people : List Person) :
    loadLoop (i + 1) records people = people ++ records.filterMap loadRow := by
  induction records generalizing i people with
  | nil => simp [loadLoop]
  | cons r rest ih =>
    unfold loadLoop
    rw [if_neg (by omega)]
    cases hr : loadRow r with
    | none => simp [ih, List.filterMap_cons, hr]
    | some p => simp [ih, List.filterMap_cons, hr]

theorem loadLoop_zero (records : List (List GoString)) :
    loadLoop 0 records [] = (records.drop 1).filterMap loadRow := by
  cases records with
  | nil => simp [loadLoop]
  | cons r rest =>
    unfold loadLoop
    simp [loadLoop_succ]

theorem layouts_reject_empty : ∀ l ∈ layouts, (Parse l []).toOption = none := by
  decide

/-! ## The fuel of the `time` model is never used up -/

theorem stdAt_length (l : GoString) (std : Std) (suf : GoString)
    (h : stdAt l = some (std, suf)) : suf.length < l.length := by
  unfold stdAt at h
  split at h
  · simp at h
  · split at h
    · split at h
      · simp at h
      · split_ifs at h <;> simp at h <;> obtain ⟨-, rfl⟩ := h <;> simp <;> omega
    · split_ifs at h <;> simp at h <;> obtain ⟨-, rfl⟩ := h <;> simp <;> omega

theorem nextStdChunk_length (l : GoString) (std : Std)
    (h : (nextStdChunk l).2.1 = some std) : (nextStdChunk l).2.2.length < l.length := by
  induction l with
  | nil => simp [nextStdChunk] at h
  | cons c rest ih =>
    unfold nextStdChunk at h ⊢
    split at h
    · next s suf hs =>
      exact stdAt_length _ _ _ hs
    · next hs =>
      have := ih h
      simp only [List.length_cons]
      omega

theorem parseLoop_fuel (fuel : Nat) (layout value : GoString) (f : Fields)
    (h : layout.length < fuel) : parseLoop fuel layout value f ≠ .error .outOfFuel := by
  induction fuel generalizing layout value f with
  | zero => omega
  | succ fuel ih =>
    unfold parseLoop
    simp only
    split
    · simp
    · split
      · split_ifs <;> simp
      all_goals
        first
        | (next hstd =>
            have hlen := nextStdChunk_length layout _ hstd
            have hfuel : (nextStdChunk layout).2.2.length < fuel := by omega
            repeat' split
            all_goals first | exact ih _ _ _ hfuel | simp)

theorem Parse_fuel (layout value : GoString) : Parse layout value ≠ .error .outOfFuel := by
  unfold Parse
  split
  · next e he =>
    intro hcon
    simp only [Except.error.injEq] at hcon
    subst hcon
    exact parseLoop_fuel _ _ _ _ (Nat.lt_succ_self _) he
  · next f _ =>
    unfold finishParse
    simp only
    split_ifs <;> simp

theorem skip_fuel (n : Nat) (pre value : GoString) (a b : Nat) (hn : pre.length ≤ n)
    (ha : pre.length < a) (hb : pre.length < b) : skip a value pre = skip b value pre := by
  induction n generalizing pre value a b with
  | zero =>
    have : pre = [] := List.length_eq_zero.mp (by omega)
    subst this
    cases a <;> cases b <;> simp [skip]
  | succ n ih =>
    cases pre with
    | nil => cases a <;> cases b <;> simp [skip]
    | cons p pre1 =>
      obtain ⟨a1, rfl⟩ : ∃ k, a = k + 1 := ⟨a - 1, by omega⟩
      obtain ⟨b1, rfl⟩ : ∃ k, b = k + 1 := ⟨b - 1, by omega⟩
      simp only [List.length_cons] at hn ha hb
      unfold skip
      split_ifs with hp hv
      · rfl
      · have hle : ((p :: pre1).dropWhile (· = ' ')).length ≤ pre1.length := by
          rw [List.dropWhile_cons_of_pos (by simpa using hp)]
          exact (List.dropWhile_sublist _).length_le
        exact ih _ _ _ _ (by omega) (by omega) (by omega)
      · cases value with
        | nil => rfl
        | cons v vs =>
          simp only
          split_ifs
          · rfl
          · exact ih _ _ _ _ (by omega) (by omega) (by omega)

/-! ## The claims about `loadPeopleFromCSV` -/

/-- C1 (fails on the code): the source comment says the WhatsApp number
(field 15) is preferred, but the code takes field 14 whenever it is non-empty.
On a row with `9811111111` in field 14 and `9822222222` in field 15 the loaded
contact is `919811111111`, not the `919822222222` that field 15 would give. -/
theorem C1_contact_comes_from_field_14 :
    TrimSpace (rowTwoNumbers.getD 14 []) = "9811111111".toList ∧
    TrimSpace (rowTwoNumbers.getD 15 []) = "9822222222".toList ∧
    choosePhone (TrimSpace (rowTwoNumbers.getD 14 [])) (TrimSpace (rowTwoNumbers.getD 15 []))
      = "9811111111".toList ∧
    loadRow rowTwoNumbers
      = some ⟨"Asha Rao".toList, ⟨1978, 7, 5⟩, "919811111111".toList⟩ ∧
    cleanPhone (TrimSpace (rowTwoNumbers.getD 15 [])) = "919822222222".toList := by
  decide

/-- C2 (fails on the code): `time.Parse` already windows a two-digit year
(69 and above to 19yy, below to 20yy), so the `t.Year() < 1900` branch never
sees one.  For every yy below 100 the date `07/05/yy` is stored with year
1900+yy when yy is at least 69 and 2000+yy otherwise; `07/05/49` is stored as
2049, not 1949, while `07/05/05` is stored as 2005. -/
theorem C2_two_digit_year_is_windowed_at_69 :
    (∀ yy : Fin 100,
      Parse "1/2/06".toList ("07/05/".toList ++ twoDigits yy.val)
        = .ok ⟨if 69 ≤ yy.val then 1900 + (yy.val : Int) else 2000 + (yy.val : Int), 7, 5⟩ ∧
      parseBirthday layouts ("07/05/".toList ++ twoDigits yy.val)
        = ⟨if 69 ≤ yy.val then 1900 + (yy.val : Int) else 2000 + (yy.val : Int), 7, 5⟩) ∧
    parseBirthday layouts "07/05/49".toList = ⟨2049, 7, 5⟩ ∧
    parseBirthday layouts "07/05/05".toList = ⟨2005, 7, 5⟩ := by
  decide

/-- C3 as the claim states it fails: on `98765+43210` the code removes the inner
plus sign and gives `919876543210`, where the claim keeps it. -/
theorem C3_inner_plus_is_removed :
    cleanPhone "98765+43210".toList = "919876543210".toList ∧
    specCleanPhone "98765+43210".toList = "9198765+43210".toList ∧
    cleanPhone "98765+43210".toList ≠ specCleanPhone "98765+43210".toList := by
  decide

theorem ReplaceAll_empty (s : GoString) (old : Char) :
    ReplaceAll s old [] = s.filter (fun c => c ≠ old) := by
  induction s with
  | nil => rfl
  | cons c rest ih =>
    unfold ReplaceAll at ih ⊢
    rw [List.flatMap_cons, ih]
    by_cases h : c = old <;> simp [h]

/-- C3 (amended): the canonical contact is s' when s' begins with `91` and
`91` followed by s' otherwise, where s' is s with every space, hyphen,
parenthesis and plus sign removed and all other characters kept in order;
`+91 987-654(3210)` and `9876543210` both give `919876543210`. -/
theorem C3_cleanPhone_removes_every_plus (s : GoString) :
    cleanPhone s =
      (if "91".toList <+: s.filter
            (fun c => c ≠ ' ' ∧ c ≠ '-' ∧ c ≠ '(' ∧ c ≠ ')' ∧ c ≠ '+')
       then s.filter (fun c => c ≠ ' ' ∧ c ≠ '-' ∧ c ≠ '(' ∧ c ≠ ')' ∧ c ≠ '+')
       else "91".toList ++
        s.filter (fun c => c ≠ ' ' ∧ c ≠ '-' ∧ c ≠ '(' ∧ c ≠ ')' ∧ c ≠ '+')) ∧
    cleanPhone "+91 987-654(3210)".toList = "919876543210".toList ∧
    cleanPhone "9876543210".toList = "919876543210".toList := by
  refine ⟨?_, by decide, by decide⟩
  unfold cleanPhone HasPrefix
  simp only [ReplaceAll_empty, List.filter_filter]
  have hf : (fun c : Char => (decide (c ≠ '+') && (decide (c ≠ ')') && (decide (c ≠ '(') &&
      (decide (c ≠ '-') && decide (c ≠ ' '))))))
      = (fun c : Char => decide (c ≠ ' ' ∧ c ≠ '-' ∧ c ≠ '(' ∧ c ≠ ')' ∧ c ≠ '+')) := by
    funext c
    simp only [Bool.decide_and]
    cases decide (c ≠ '+') <;> cases decide (c ≠ ')') <;> cases decide (c ≠ '(') <;>
      cases decide (c ≠ '-') <;> cases decide (c ≠ ' ') <;> rfl
  rw [hf]
  generalize s.filter _ = t
  generalize "91".toList = p
  by_cases h : p <+: t
  · have hb : List.isPrefixOf p t = true := List.isPrefixOf_iff_prefix.mpr h
    simp [h, hb]
  · have hb : List.isPrefixOf p t = false := by
      rw [← Bool.not_eq_true, List.isPrefixOf_iff_prefix]
      exact h
    simp [h, hb]

theorem readAllLoop_ok (fieldsPerRecord : Nat) (rows records out : List (List GoString))
    (h : readAllLoop fieldsPerRecord rows records = .ok out) : out = records ++ rows := by
  induction rows generalizing fieldsPerRecord records with
  | nil =>
    simp only [readAllLoop, Except.ok.injEq] at h
    simp [h]
  | cons r rest ih =>
    unfold readAllLoop at h
    split_ifs at h
    · rw [ih _ _ h]
      simp
    · rw [ih _ _ h]
      simp

theorem readAllLoop_error (fieldsPerRecord : Nat) (rows records : List (List GoString))
    (e : LoadError) (h : readAllLoop fieldsPerRecord rows records = .error e) :
    e = .ErrFieldCount := by
  induction rows generalizing fieldsPerRecord records with
  | nil => simp [readAllLoop] at h
  | cons r rest ih =>
    unfold readAllLoop at h
    split_ifs at h
    · simp only [Except.error.injEq] at h
      exact h.symm
    · exact ih _ _ h
    · exact ih _ _ h

theorem readAllLoop_uniform (n fieldsPerRecord : Nat) (rows records : List (List GoString))
    (hk : fieldsPerRecord = 0 ∨ fieldsPerRecord = n) (h : ∀ r ∈ rows, r.length = n) :
    readAllLoop fieldsPerRecord rows records = .ok (records ++ rows) := by
  induction rows generalizing fieldsPerRecord records with
  | nil => simp [readAllLoop]
  | cons r rest ih =>
    have hr : r.length = n := h r (List.mem_cons_self _ _)
    have hrest : ∀ x ∈ rest, x.length = n := fun x hx => h x (List.mem_cons_of_mem _ hx)
    unfold readAllLoop
    split_ifs with hpos hne
    · omega
    · rw [ih _ _ hk hrest]
      simp
    · rw [ih _ _ (Or.inr hr) hrest]
      simp

/-- When every record of the file has the same number of fields, `ReadAll`
returns them all. -/
theorem ReadAll_uniform (n : Nat) (rows : List (List GoString))
    (h : ∀ r ∈ rows, r.length = n) : ReadAll rows = .ok rows := by
  unfold ReadAll
  rw [readAllLoop_uniform n 0 rows [] (Or.inl rfl) h]
  simp

/-- The loader on the records of a file: when `ReadAll` accepts them the roster
is, in order, the Person of each record after the first that the row logic
accepts; otherwise the result is `ErrFieldCount`. -/
theorem loadPeopleFromCSV_eq (rows : List (List GoString)) :
    loadPeopleFromCSV (.ok rows) =
      match ReadAll rows with
      | .ok _ => .ok ((rows.drop 1).filterMap loadRow)
      | .error _ => .error .ErrFieldCount := by
  unfold loadPeopleFromCSV
  simp only
  cases h : ReadAll rows with
  | error e =>
    have := readAllLoop_error 0 rows [] e h
    simp [this]
  | ok records =>
    have := readAllLoop_ok 0 rows [] records h
    simp only [List.nil_append] at this
    simp [this, loadLoop_zero]

/-- The loader on a file whose records all have the same number of fields: no
error, and the roster of the accepted records after the first, in order. -/
theorem loadPeopleFromCSV_uniform (n : Nat) (rows : List (List GoString))
    (h : ∀ r ∈ rows, r.length = n) :
    loadPeopleFromCSV (.ok rows) = .ok ((rows.drop 1).filterMap loadRow) := by
  rw [loadPeopleFromCSV_eq, ReadAll_uniform n rows h]

/-- The row logic accepts a record exactly when it has at least 18 fields, a
non-empty trimmed name (field 5), a trimmed date (field 17) that at least one
layout parses, and a non-empty trimmed field 14 or 15. -/
theorem loadRow_isSome_iff (record : List GoString) :
    (loadRow record).isSome = true ↔
      (18 ≤ record.length ∧
       TrimSpace (record.getD 5 []) ≠ [] ∧
       (∃ layout ∈ layouts, ∃ t, Parse layout (TrimSpace (record.getD 17 [])) = .ok t) ∧
       (TrimSpace (record.getD 14 []) ≠ [] ∨ TrimSpace (record.getD 15 []) ≠ [])) := by
  have hz := parseBirthday_isZero layouts (TrimSpace (record.getD 17 []))
  have he := layouts_reject_empty
  unfold loadRow choosePhone
  simp only
  generalize TrimSpace (record.getD 5 []) = name
  generalize TrimSpace (record.getD 17 []) = date at hz
  generalize TrimSpace (record.getD 14 []) = primary
  generalize TrimSpace (record.getD 15 []) = whatsapp
  have hempty : date = [] → ¬ ∃ l ∈ layouts, ∃ t, Parse l date = .ok t := by
    rintro rfl ⟨l, hl, t, ht⟩
    have := he l hl
    rw [ht] at this
    simp [Except.toOption] at this
  cases hzero : (parseBirthday layouts date).IsZero
  · have hex := hz.mp hzero
    have hdate : date ≠ [] := fun h => hempty h hex
    by_cases hlen : record.length < 18 <;> by_cases hname : name = [] <;>
      by_cases hp : primary = [] <;> by_cases hw : whatsapp = [] <;>
      simp [hlen, hname, hp, hw, hdate, hex] <;> omega
  · have hex : ¬ ∃ l ∈ layouts, ∃ t, Parse l date = .ok t := by
      rw [← hz, hzero]
      simp
    by_cases hlen : record.length < 18 <;> by_cases hname : name = [] <;>
      by_cases hp : primary = [] <;> by_cases hw : whatsapp = [] <;>
      simp [hlen, hname, hp, hw, hex]

/-- C4 (fails on the code): the row loop skips a record with fewer than 18
fields and goes on, but `ReadAll` comes first and, on the reader that
`csv.NewReader` makes, stops with `ErrFieldCount` at any record whose number of
fields differs from the first record's.  On a file with the 23-field header, a
3-field record and a full 23-field record, the row logic alone skips the short
record and loads `Ravi Rao` from the next one, while `loadPeopleFromCSV`
returns the error and no roster. -/
theorem C4_short_row_makes_the_load_fail :
    raggedCSV.map List.length = [23, 3, 23] ∧
    (raggedCSV.drop 1).map loadRow
      = [none, some ⟨"Ravi Rao".toList, ⟨1978, 7, 5⟩, "919876543210".toList⟩] ∧
    loadLoop 0 raggedCSV []
      = [⟨"Ravi Rao".toList, ⟨1978, 7, 5⟩, "919876543210".toList⟩] ∧
    ReadAll raggedCSV = .error .ErrFieldCount ∧
    loadPeopleFromCSV (.ok raggedCSV) = .error .ErrFieldCount := by
  decide

theorem isLeap_iff (y : Int) :
    isLeap y = true ↔ y % 4 = 0 ∧ (y % 100 ≠ 0 ∨ y % 400 = 0) := by
  simp [isLeap]

theorem daysIn_add_2000 (m : Nat) (y : Int) : daysIn m (y + 2000) = daysIn m y := by
  have h : isLeap (y + 2000) = isLeap y := by
    rw [Bool.eq_iff_iff, isLeap_iff, isLeap_iff]
    omega
  unfold daysIn
  rw [h]

theorem daysIn_add_1900 (m d : Nat) (y : Int) (hd : d ≤ daysIn m y)
    (h : ¬ (m = 2 ∧ d = 29 ∧ y % 400 = 0)) : d ≤ daysIn m (y + 1900) := by
  unfold daysIn at hd ⊢
  by_cases hm : m = 2
  · rw [if_pos hm] at hd ⊢
    by_cases hl : isLeap y = true
    · by_cases hl1 : isLeap (y + 1900) = true
      · rw [if_pos hl1]
        rw [if_pos hl] at hd
        exact hd
      · rw [if_pos hl] at hd
        rw [if_neg hl1]
        rw [isLeap_iff] at hl hl1
        have : d ≠ 29 := by
          intro h29
          apply hl1
          have h400 : y % 400 ≠ 0 := fun h4 => h ⟨hm, h29, h4⟩
          omega
        omega
    · rw [if_neg hl] at hd
      split_ifs <;> omega
  · rw [if_neg hm] at hd ⊢
    exact hd

/-- The year adjustment keeps the month and the day of a date that `Parse`
returned, except for 29 February of a year that is a multiple of 400 and lies
between 31 and 1899. -/
theorem adjustYear_keeps_month_day (t : Time) (hv : ValidDate t)
    (h : ¬ (t.month = 2 ∧ t.day = 29 ∧ t.year % 400 = 0 ∧ 30 < t.year ∧ t.year < 1900)) :
    (adjustYear t).month = t.month ∧ (adjustYear t).day = t.day := by
  obtain ⟨h1, h12, hd1, hd⟩ := hv
  unfold adjustYear Time.AddDate
  simp only [add_zero]
  split_ifs with hlt h30
  · rw [Date_of_valid _ _ _ h1 h12 hd1 (by rw [daysIn_add_2000]; exact hd)]
    exact ⟨rfl, rfl⟩
  · rw [Date_of_valid _ _ _ h1 h12 hd1 (daysIn_add_1900 _ _ _ hd (by
      rintro ⟨hm, h29, h400⟩
      exact h ⟨hm, h29, h400, by omega, hlt⟩))]
    exact ⟨rfl, rfl⟩
  · exact ⟨rfl, rfl⟩

/-- C5 (fails on the code): `AddDate(1900, 0, 0)` normalises like `Date`, so
29 February of a leap year moves to 1 March when the shifted year is not a leap
year.  The date `2/29/0400` is first parsed by layout `1/2/2006` as 29 February
of year 400 and is stored as 1 March 2300. -/
theorem C5_leap_day_is_moved_to_march :
    Parse "1/2/06".toList "2/29/0400".toList = .error .extraText ∧
    Parse "01/02/06".toList "2/29/0400".toList = .error .bad ∧
    Parse "1/2/2006".toList "2/29/0400".toList = .ok ⟨400, 2, 29⟩ ∧
    adjustYear ⟨400, 2, 29⟩ = ⟨2300, 3, 1⟩ ∧
    parseBirthday layouts "2/29/0400".toList = ⟨2300, 3, 1⟩ ∧
    loadRow rowLeapDay = some ⟨"Ravi Rao".toList, ⟨2300, 3, 1⟩, "919833333333".toList⟩ := by
  decide

/-- C10 (fails on the code): no layout of the list parses the sample dates
`15/1/89` and `22/12/92` (day first, two-digit year), so both sample rows are
skipped and loading the generated example file yields an empty roster. -/
theorem C10_example_rows_are_skipped :
    layouts.map (fun layout => Parse layout "15/1/89".toList)
      = [.error .monthOutOfRange, .error .monthOutOfRange, .error .monthOutOfRange,
         .error .monthOutOfRange, .error .bad, .error .bad, .error .bad] ∧
    layouts.map (fun layout => Parse layout "22/12/92".toList)
      = [.error .monthOutOfRange, .error .monthOutOfRange, .error .monthOutOfRange,
         .error .monthOutOfRange, .error .bad, .error .bad, .error .bad] ∧
    (createExampleCSV.drop 1).map loadRow = [none, none] ∧
    loadPeopleFromCSV (.ok createExampleCSV) = .ok [] := by
  decide

/-! ## Facts about `Sprintf` and the templates -/

theorem Sprintf_isSome_args (n : Nat) (format : GoString) (args args1 : List GoString)
    (hn : format.length ≤ n) :
    (Sprintf format args).isSome = (Sprintf format args1).isSome := by
  induction n generalizing format args args1 with
  | zero =>
    have : format = [] := List.length_eq_zero.mp (by omega)
    subst this
    cases args <;> cases args1 <;> simp [Sprintf]
  | succ n ih =>
    cases format with
    | nil => cases args <;> cases args1 <;> simp [Sprintf]
    | cons c rest =>
      simp only [List.length_cons] at hn
      unfold Sprintf
      by_cases hc : c ≠ '%'
      · simp only [if_pos hc, Option.isSome_map']
        exact ih rest args args1 (by omega)
      · simp only [if_neg hc]
        cases rest with
        | nil => rfl
        | cons v rest1 =>
          simp only [List.length_cons] at hn
          simp only
          by_cases hv : v = 's'
          · simp only [if_pos hv]
            cases args <;> cases args1 <;> simp only [Option.isSome_map'] <;>
              exact ih rest1 _ _ (by omega)
          · simp only [if_neg hv]
            by_cases hp : v = '%'
            · simp only [if_pos hp, Option.isSome_map']
              exact ih rest1 _ _ (by omega)
            · simp only [if_neg hp]

set_option maxRecDepth 100000 in
theorem templates_in_model :
    ∀ t ∈ birthdayMessageTemplates ++ birthdayMessageTemplatesHindi,
      (Sprintf t []).isSome = true := by
  decide

theorem Sprintf_template_isSome (t : GoString)
    (ht : t ∈ birthdayMessageTemplates ++ birthdayMessageTemplatesHindi)
    (args : List GoString) : (Sprintf t args).isSome = true := by
  rw [Sprintf_isSome_args t.length t args [] le_rfl]
  exact templates_in_model t ht

theorem Sprintf_report_line (a b : GoString) :
    Sprintf "%s (%s)\n".toList [a, b] = some (a ++ (" (".toList ++ (b ++ ")\n".toList))) := by
  rfl

theorem templates_length :
    birthdayMessageTemplates.length = 7 ∧ birthdayMessageTemplatesHindi.length = 5 := by
  constructor <;> rfl

theorem birthdayMessage_isSome (today : Time) (person : Person)
    (senderName senderNumber : GoString) (r : Nat) :
    (birthdayMessage today person senderName senderNumber r).isSome = true := by
  unfold birthdayMessage Intn
  simp only
  split_ifs
  · have hlt : r % birthdayMessageTemplatesHindi.length < birthdayMessageTemplatesHindi.length :=
      Nat.mod_lt _ (by rw [templates_length.2]; norm_num)
    rw [List.get?_eq_get hlt]
    exact Sprintf_template_isSome _
      (List.mem_append_right _ (List.get_mem _ _ _)) _
  · have hlt : r % birthdayMessageTemplates.length < birthdayMessageTemplates.length :=
      Nat.mod_lt _ (by rw [templates_length.1]; norm_num)
    rw [List.get?_eq_get hlt]
    exact Sprintf_template_isSome _
      (List.mem_append_left _ (List.get_mem _ _ _)) _

/-! ## The run of `checkBirthdays` -/

theorem reportLoop_eq (people : List Person) (reportMsg : GoString) :
    reportLoop people reportMsg = some (reportMsg ++
      people.flatMap (fun p => p.Name ++ (" (".toList ++ (p.Phone ++ ")\n".toList)))) := by
  induction people generalizing reportMsg with
  | nil => simp [reportLoop]
  | cons p rest ih =>
    unfold reportLoop
    rw [Sprintf_report_line]
    simp only
    rw [ih]
    simp

theorem reportMessage_eq (people : List Person) :
    reportMessage people = some ("Birthday messages sent today:\n".toList ++
      people.flatMap (fun p => p.Name ++ (" (".toList ++ (p.Phone ++ ")\n".toList))) ++
      (if people = [] then "(No messages sent)".toList else [])) := by
  unfold reportMessage
  rw [reportLoop_eq]
  cases people with
  | nil => rfl
  | cons p rest => simp

theorem checkLoop_spec (w : World) (senderName senderNumber : GoString)
    (people : List Person) (st : RunState) :
    ∃ st1 newCalls,
      checkLoop w senderName senderNumber people st = some st1 ∧
      st1.calls = st.calls ++ newCalls ∧
      st1.birthdayCount = st.birthdayCount +
        (people.filter (fun p => decide
          (p.Birthday.day = w.today.day ∧ p.Birthday.month = w.today.month))).length ∧
      st1.draws = st.draws +
        (people.filter (fun p => decide
          (p.Birthday.day = w.today.day ∧ p.Birthday.month = w.today.month))).length ∧
      newCalls.map (fun c => c.phoneNumber) =
        (people.filter (fun p => decide
          (p.Birthday.day = w.today.day ∧ p.Birthday.month = w.today.month))).map
          (fun p => p.Phone) ∧
      newCalls.map (fun c => some c.message) =
        ((people.filter (fun p => decide
          (p.Birthday.day = w.today.day ∧ p.Birthday.month = w.today.month))).enumFrom
            st.draws).map
          (fun kp => birthdayMessage w.today kp.2 senderName senderNumber (w.rand kp.1)) ∧
      newCalls.map (fun c => c.ok) =
        (newCalls.enumFrom st.calls.length).map
          (fun kc => w.send kc.1 kc.2.phoneNumber kc.2.message) ∧
      st1.sentPeople = st.sentPeople ++
        (((people.filter (fun p => decide
          (p.Birthday.day = w.today.day ∧ p.Birthday.month = w.today.month))).zip
            (newCalls.map (fun c => c.ok))).filter (fun pq => pq.2)).map (fun pq => pq.1) := by
  induction people generalizing st with
  | nil => exact ⟨st, [], by simp [checkLoop]⟩
  | cons p rest ih =>
    unfold checkLoop
    by_cases hm : p.Birthday.day = w.today.day ∧ p.Birthday.month = w.today.month
    · rw [if_pos hm]
      have hsome := birthdayMessage_isSome w.today p senderName senderNumber (w.rand st.draws)
      obtain ⟨message, hmsg⟩ := Option.isSome_iff_exists.mp hsome
      rw [hmsg]
      simp only
      obtain ⟨st1, newCalls, hrun, hcalls, hcount, hdraws, hphone, hmessage, hok, hsent⟩ :=
        ih { birthdayCount := st.birthdayCount + 1
             sentPeople := if w.send st.calls.length p.Phone message = true
               then st.sentPeople ++ [p] else st.sentPeople
             calls := st.calls ++ [⟨p.Phone, message, w.send st.calls.length p.Phone message⟩]
             draws := st.draws + 1 }
      have hf : (p :: rest).filter (fun p => decide
          (p.Birthday.day = w.today.day ∧ p.Birthday.month = w.today.month))
          = p :: rest.filter (fun p => decide
          (p.Birthday.day = w.today.day ∧ p.Birthday.month = w.today.month)) := by
        rw [List.filter_cons_of_pos (by simpa using hm)]
      refine ⟨st1, ⟨p.Phone, message, w.send st.calls.length p.Phone message⟩ :: newCalls,
        hrun, ?_, ?_, ?_, ?_, ?_, ?_, ?_⟩
      · rw [hcalls]
        simp
      · rw [hcount, hf]
        simp only [List.length_cons]
        omega
      · rw [hdraws, hf]
        simp only [List.length_cons]
        omega
      · rw [hf]
        simp only [List.map_cons, hphone]
      · rw [hf]
        simp only [List.map_cons, List.enumFrom_cons, hmessage, hmsg]
      · simp only [List.map_cons, List.enumFrom_cons]
        rw [hok]
        simp
      · rw [hsent, hf]
        cases hsend : w.send st.calls.length p.Phone message <;> simp [hsend]
    · rw [if_neg hm]
      have hf : (p :: rest).filter (fun p => decide
          (p.Birthday.day = w.today.day ∧ p.Birthday.month = w.today.month))
          = rest.filter (fun p => decide
          (p.Birthday.day = w.today.day ∧ p.Birthday.month = w.today.month)) := by
        rw [List.filter_cons_of_neg (by simpa using hm)]
      rw [hf]
      exact ih st

theorem checkBirthdays_spec (w : World) (people : List Person)
    (senderName senderNumber reportNumber : GoString) :
    ∃ st birthdayCalls,
      checkBirthdays true w people senderName senderNumber reportNumber = some st ∧
      birthdayCalls.length = (people.filter (fun p => decide
          (p.Birthday.day = w.today.day ∧ p.Birthday.month = w.today.month))).length ∧
      st.calls = birthdayCalls ++
        (if (people.filter (fun p => decide
          (p.Birthday.day = w.today.day ∧ p.Birthday.month = w.today.month))) = [] then []
         else [⟨reportNumber,
            "Birthday messages sent today:\n".toList ++
              st.sentPeople.flatMap
                (fun p => p.Name ++ (" (".toList ++ (p.Phone ++ ")\n".toList))) ++
              (if st.sentPeople = [] then "(No messages sent)".toList else []),
            w.send birthdayCalls.length reportNumber
              ("Birthday messages sent today:\n".toList ++
                st.sentPeople.flatMap
                  (fun p => p.Name ++ (" (".toList ++ (p.Phone ++ ")\n".toList))) ++
                (if st.sentPeople = [] then "(No messages sent)".toList else []))⟩]) ∧
      st.birthdayCount = birthdayCalls.length ∧
      birthdayCalls.map (fun c => c.phoneNumber) =
        (people.filter (fun p => decide
          (p.Birthday.day = w.today.day ∧ p.Birthday.month = w.today.month))).map
          (fun p => p.Phone) ∧
      birthdayCalls.map (fun c => some c.message) =
        ((people.filter (fun p => decide
          (p.Birthday.day = w.today.day ∧ p.Birthday.month = w.today.month))).enum).map
          (fun kp => birthdayMessage w.today kp.2 senderName senderNumber (w.rand kp.1)) ∧
      birthdayCalls.map (fun c => c.ok) =
        birthdayCalls.enum.map (fun kc => w.send kc.1 kc.2.phoneNumber kc.2.message) ∧
      st.sentPeople =
        (((people.filter (fun p => decide
          (p.Birthday.day = w.today.day ∧ p.Birthday.month = w.today.month))).zip
            (birthdayCalls.map (fun c => c.ok))).filter (fun pq => pq.2)).map
          (fun pq => pq.1) := by
  obtain ⟨st1, newCalls, hrun, hcalls, hcount, hdraws, hphone, hmessage, hok, hsent⟩ :=
    checkLoop_spec w senderName senderNumber people ⟨0, [], [], 0⟩
  dsimp only at hcalls hcount hdraws hmessage hok hsent
  simp only [List.nil_append, Nat.zero_add, List.length_nil] at hcalls hcount hdraws hsent hok
  have hlen : newCalls.length = (people.filter (fun p => decide
      (p.Birthday.day = w.today.day ∧ p.Birthday.month = w.today.month))).length := by
    have := congrArg List.length hphone
    simpa using this
  unfold checkBirthdays
  simp only [Bool.not_true, Bool.false_eq_true, if_false, hrun]
  by_cases hzero : st1.birthdayCount = 0
  · have hnil : (people.filter (fun p => decide
        (p.Birthday.day = w.today.day ∧ p.Birthday.month = w.today.month))) = [] :=
      List.length_eq_zero.mp (by omega)
    refine ⟨st1, newCalls, by simp [hzero], hlen, ?_, by omega, hphone, hmessage, hok, hsent⟩
    rw [if_pos hnil, hcalls]
    simp
  · have hne : (people.filter (fun p => decide
        (p.Birthday.day = w.today.day ∧ p.Birthday.month = w.today.month))) ≠ [] := by
      intro h
      rw [h] at hcount
      exact hzero (by simpa using hcount)
    refine ⟨{ st1 with
        calls := st1.calls ++ [⟨reportNumber,
          "Birthday messages sent today:\n".toList ++
            st1.sentPeople.flatMap
              (fun p => p.Name ++ (" (".toList ++ (p.Phone ++ ")\n".toList))) ++
            (if st1.sentPeople = [] then "(No messages sent)".toList else []),
          w.send st1.calls.length reportNumber
            ("Birthday messages sent today:\n".toList ++
              st1.sentPeople.flatMap
                (fun p => p.Name ++ (" (".toList ++ (p.Phone ++ ")\n".toList))) ++
              (if st1.sentPeople = [] then "(No messages sent)".toList else []))⟩] },
      newCalls, by simp only [if_neg hzero, reportMessage_eq], hlen, ?_, by
      simp only; omega, hphone, hmessage, hok, hsent⟩
    simp only [if_neg hne, hcalls]

/-- C6: in a run that starts connected, the first calls of `sendMessage` are the
birthday sends: one per Person whose birthday day and month equal today's (the
year plays no part), in roster order, each with the message built for that
Person and the outcome the transport gives, whatever the outcomes before it;
their number is `birthdayCount`; and `sentPeople` is the matched Persons whose
send succeeded, in the same order. -/
theorem C6_sends_go_to_the_matched_people (w : World) (people : List Person)
    (senderName senderNumber reportNumber : GoString) :
    let matched := people.filter (fun p => decide
      (p.Birthday.day = w.today.day ∧ p.Birthday.month = w.today.month))
    ∃ st, checkBirthdays true w people senderName senderNumber reportNumber = some st ∧
      st.birthdayCount = matched.length ∧
      (st.calls.take matched.length).map (fun c => c.phoneNumber)
        = matched.map (fun p => p.Phone) ∧
      (st.calls.take matched.length).map (fun c => some c.message)
        = matched.enum.map
          (fun kp => birthdayMessage w.today kp.2 senderName senderNumber (w.rand kp.1)) ∧
      (st.calls.take matched.length).map (fun c => c.ok)
        = (st.calls.take matched.length).enum.map
          (fun kc => w.send kc.1 kc.2.phoneNumber kc.2.message) ∧
      st.sentPeople
        = ((matched.zip ((st.calls.take matched.length).map (fun c => c.ok))).filter
            (fun pq => pq.2)).map (fun pq => pq.1) := by
  intro matched
  obtain ⟨st, birthdayCalls, hrun, hlen, hcalls, hcount, hphone, hmessage, hok, hsent⟩ :=
    checkBirthdays_spec w people senderName senderNumber reportNumber
  have htake : st.calls.take matched.length = birthdayCalls := by
    rw [hcalls]
    exact List.take_left' hlen
  refine ⟨st, hrun, ?_, ?_, ?_, ?_, ?_⟩
  · rw [hcount, hlen]
  · rw [htake]
    exact hphone
  · rw [htake]
    exact hmessage
  · rw [htake]
    exact hok
  · rw [htake]
    exact hsent

/-- C7: at the end of a run that starts connected, the calls after the birthday
sends are none when no Person matched, and otherwise exactly one call, to
`reportNumber`, whatever its outcome, whose text is the header line
`Birthday messages sent today:`, then one line `Name (Phone)` per member of
`sentPeople` in order, then `(No messages sent)` when `sentPeople` is empty.
With no match no call is made at all.  For the roster of `Test User`
(`919999999999`) on a 2 January with a successful send the report is the header
followed by the line `Test User (919999999999)`. -/
theorem C7_one_report_after_the_sends (w : World) (people : List Person)
    (senderName senderNumber reportNumber : GoString) :
    let matched := people.filter (fun p => decide
      (p.Birthday.day = w.today.day ∧ p.Birthday.month = w.today.month))
    (∃ st, checkBirthdays true w people senderName senderNumber reportNumber = some st ∧
      st.calls.drop matched.length =
        (if matched = [] then []
         else [⟨reportNumber,
            "Birthday messages sent today:\n".toList ++
              st.sentPeople.flatMap
                (fun p => p.Name ++ (" (".toList ++ (p.Phone ++ ")\n".toList))) ++
              (if st.sentPeople = [] then "(No messages sent)".toList else []),
            w.send matched.length reportNumber
              ("Birthday messages sent today:\n".toList ++
                st.sentPeople.flatMap
                  (fun p => p.Name ++ (" (".toList ++ (p.Phone ++ ")\n".toList))) ++
                (if st.sentPeople = [] then "(No messages sent)".toList else []))⟩]) ∧
      (if matched = [] then st.calls = [] else st.calls.length = matched.length + 1)) ∧
    (∀ (year : Int) (rand : Nat → Nat) (reportOk : Bool),
      ∃ st, checkBirthdays true ⟨⟨year, 1, 2⟩, rand, fun k _ _ => k == 0 || reportOk⟩
          [testUser] senderName senderNumber reportNumber = some st ∧
        st.sentPeople = [testUser] ∧
        st.calls.drop 1 = [⟨reportNumber,
          "Birthday messages sent today:\nTest User (919999999999)\n".toList, reportOk⟩]) := by
  intro matched
  constructor
  · obtain ⟨st, birthdayCalls, hrun, hlen, hcalls, -, -, -, -, -⟩ :=
      checkBirthdays_spec w people senderName senderNumber reportNumber
    refine ⟨st, hrun, ?_, ?_⟩
    · rw [hcalls, List.drop_left' hlen, hlen]
    · by_cases hm : matched = []
      · rw [if_pos hm, hcalls]
        have h0 : birthdayCalls = [] := List.length_eq_zero.mp (by
          rw [hlen]
          exact List.length_eq_zero.mpr hm)
        rw [h0]
        simp only [List.nil_append]
        exact if_pos hm
      · rw [if_neg hm, hcalls]
        have hif : ∀ c : SendCall, (if matched = [] then [] else [c]) = [c] :=
          fun c => if_neg hm
        rw [hif]
        simp only [List.length_append, List.length_cons, List.length_nil]
        have hlen1 : birthdayCalls.length = matched.length := hlen
        omega
  · intro year rand reportOk
    have hsome := birthdayMessage_isSome ⟨year, 1, 2⟩ testUser senderName senderNumber (rand 0)
    obtain ⟨message, hmsg⟩ := Option.isSome_iff_exists.mp hsome
    have hday : testUser.Birthday.day = 2 ∧ testUser.Birthday.month = 1 := ⟨rfl, rfl⟩
    simp only [checkBirthdays, checkLoop, hday, hmsg, reportMessage_eq]
    simp
    rfl

/-- C8: with age = today.year - birthday.year, the message of a matched Person
is the rendering with (name, senderName, senderNumber) of the template at the
drawn index in `birthdayMessageTemplatesHindi` when age > 40 and in
`birthdayMessageTemplates` otherwise (zero and negative ages included); the
drawn index is within the bounds of that set, the rendering exists, and every
template of the set is the one used for some draw. -/
theorem C8_template_set_follows_age (today : Time) (person : Person)
    (senderName senderNumber : GoString) (r : Nat) :
    let age := today.year - person.Birthday.year
    let set := if age > 40 then birthdayMessageTemplatesHindi else birthdayMessageTemplates
    Intn r set.length < set.length ∧
    (∃ template message, set.get? (Intn r set.length) = some template ∧
      Sprintf template [person.Name, senderName, senderNumber] = some message ∧
      birthdayMessage today person senderName senderNumber r = some message) ∧
    (∀ i : Fin set.length, ∃ r1, Intn r1 set.length = i.val ∧
      birthdayMessage today person senderName senderNumber r1
        = Sprintf (set.get i) [person.Name, senderName, senderNumber]) := by
  intro age set
  have hpos : 0 < set.length := by
    show 0 < (if age > 40 then birthdayMessageTemplatesHindi
      else birthdayMessageTemplates).length
    split_ifs
    · rw [templates_length.2]
      norm_num
    · rw [templates_length.1]
      norm_num
  have hrun : ∀ r1, birthdayMessage today person senderName senderNumber r1 =
      match set.get? (Intn r1 set.length) with
      | none => none
      | some template => Sprintf template [person.Name, senderName, senderNumber] := by
    intro r1
    show birthdayMessage today person senderName senderNumber r1 =
      match (if age > 40 then birthdayMessageTemplatesHindi
        else birthdayMessageTemplates).get? (Intn r1 (if age > 40
          then birthdayMessageTemplatesHindi else birthdayMessageTemplates).length) with
      | none => none
      | some template => Sprintf template [person.Name, senderName, senderNumber]
    unfold birthdayMessage
    simp only
    by_cases ha : age > 40
    · have ha1 : today.year - person.Birthday.year > 40 := ha
      simp only [if_pos ha, if_pos ha1]
    · have ha1 : ¬ today.year - person.Birthday.year > 40 := ha
      simp only [if_neg ha, if_neg ha1]
  have hlt : ∀ r1, Intn r1 set.length < set.length := fun r1 => Nat.mod_lt _ hpos
  refine ⟨hlt r, ?_, ?_⟩
  · have hsome := birthdayMessage_isSome today person senderName senderNumber r
    obtain ⟨message, hmsg⟩ := Option.isSome_iff_exists.mp hsome
    refine ⟨set.get ⟨Intn r set.length, hlt r⟩, message, List.get?_eq_get (hlt r), ?_, hmsg⟩
    rw [← hmsg, hrun r, List.get?_eq_get (hlt r)]
  · intro i
    refine ⟨i.val, Nat.mod_eq_of_lt i.isLt, ?_⟩
    have hi : Intn i.val set.length = i.val := Nat.mod_eq_of_lt i.isLt
    rw [hrun i.val, hi, List.get?_eq_get i.isLt]

/-! ## The scheduler -/

/-- C9: for every instant `now` the initial delay d satisfies 0 <= d < 24h, and
now + d is an occurrence of the 09:00:00 anchor: the anchor of the day of `now`
when `now` is not after it, and the next day's anchor, with
d = 24h - (now - today's anchor), when `now` is strictly after it. -/
theorem C9_initial_delay_reaches_next_anchor (now : Int) :
    0 ≤ duration now ∧ duration now < 24 * Hour ∧
    (today9AM now - 9 * Hour) % (24 * Hour) = 0 ∧
    today9AM now - 9 * Hour ≤ now ∧ now < today9AM now - 9 * Hour + 24 * Hour ∧
    (now + duration now - 9 * Hour) % (24 * Hour) = 0 ∧
    now + duration now
      = (if now > today9AM now then today9AM now + 24 * Hour else today9AM now) ∧
    duration now
      = (if now > today9AM now then 24 * Hour - (now - today9AM now)
         else today9AM now - now) := by
  unfold duration next9AM today9AM Hour
  split_ifs <;> omega

end Pingfling
